import Mathlib

/-!
A shallow embedding of the metrics engine of the portfolio-management
application (`src/backend/analysis.py`, class `PortfolioAnalyzer`, together
with the data model of `src/backend/models.py`), and theorems checking the
natural-language specification against it.

Modelling conventions:

* Python floats are modelled as exact rationals (`ℚ`).  A float value that
  may be non-finite (NaN or ±infinity, as produced by IEEE division by zero
  or by pandas statistics on degenerate inputs) is modelled as `Option ℚ`,
  with `none` standing for「non-finite」.
* A raised Python exception is modelled as `Except.error` with the
  exception's message.
* `np.sqrt` (and the square root inside `pandas.Series.std`) returns an
  irrational-valued quantity that a rational model cannot represent
  exactly; the development is therefore parameterised by an abstract square
  root `fsqrt : ℚ → ℚ`, standing for the (rational-valued) floating-point
  square-root function.  Theorems assume of it only what IEEE `sqrt`
  guarantees and what the claim at hand needs (e.g. `fsqrt 0 = 0`).
* A return series (`pandas.Series` indexed by dates) is a list of
  (date, value) pairs, dates modelled as `ℕ`.
* The engine's two external collaborators — `yf.download`, which fetches a
  price history and is reduced by the code to a daily-return series, and
  the body of the `try:` block of `_run_lasso` (a network download followed
  by a floating-point Lasso fit) — are supplied as an explicit environment
  `Env`.  Both are external I/O (spec §6); `Env.forecast t` is the outcome
  of the try-block for ticker `t`: `Except.ok v` when it produces the
  prediction `v`, `Except.error ()` when it raises.
-/

/-- A dated return series: `pandas.Series` of fractional returns indexed by
date.  Dates are abstracted as naturals. -/
abbrev Series := List (ℕ × ℚ)

/-- `models.py` class `Position` (pydantic `BaseModel`): `Optional` fields
are `Option ℚ`. -/
structure Position where
  ticker : String
  shares : ℚ
  purchase_price : ℚ
  current_price : Option ℚ
  market_value : Option ℚ
  unrealized_pl : Option ℚ
  weight : Option ℚ
deriving DecidableEq, Repr

/-- `models.py` class `Portfolio`.  The metrics field named `sharpe_ratio`
in the source is called `sharpe` here (Lean-side renaming only);
`last_updated` (`Optional[datetime]`) is abstracted as an optional natural
timestamp. -/
structure Portfolio where
  positions : List Position
  total_value : Option ℚ
  daily_pl : Option ℚ
  var_95 : Option ℚ
  volatility : Option ℚ
  sharpe : Option ℚ
  beta : Option ℚ
  last_updated : Option ℕ
deriving DecidableEq, Repr

/-- The dictionary returned by `PortfolioAnalyzer.calculate_metrics`.
`volatility` and `sharpe` (source key `"sharpe_ratio"`) are `Option ℚ`
because `pandas.Series.std` yields NaN on fewer than two observations and
the Sharpe formula divides by the standard deviation, so those entries can
be non-finite floats.  `lasso_predictions` is a Python dict, modelled as an
insertion-ordered association list. -/
structure Metrics where
  total_value : ℚ
  daily_pl : ℚ
  var_95 : ℚ
  volatility : Option ℚ
  sharpe : Option ℚ
  beta : ℚ
  lasso_predictions : List (String × ℚ)
deriving DecidableEq, Repr

/-- The engine's external collaborators (spec §6).  `download t` is
`yf.download(t, period="2y")["Adj Close"].pct_change().dropna()`, i.e. the
daily-return series the code derives from the fetched history; `forecast t`
is the outcome of the body of the `try:` block of `_run_lasso` for ticker
`t` (download of OHLCV data, feature construction and Lasso fit —
floating-point library code outside the scope of this embedding): `ok v`
when it returns prediction `v`, `error ()` when it raises. -/
structure Env where
  download : String → Series
  forecast : String → Except Unit ℚ

/-- `PortfolioAnalyzer.__init__`: `self.risk_free_rate = 0.02`. -/
def risk_free_rate : ℚ := 2 / 100

/-- `pandas.Series.mean()` of the values of a list. -/
def mean (xs : List ℚ) : ℚ := xs.sum / xs.length

/-- The sample variance with `ddof = 1` (the quantity under the square root
of `pandas.Series.std()`). -/
def variance (xs : List ℚ) : ℚ :=
  (xs.map (fun x => (x - mean xs) ^ 2)).sum / ((xs.length : ℚ) - 1)

/-- `pandas.Series.std()` (default `ddof = 1`): `fsqrt` of the sample
variance; NaN (`none`) when there are fewer than two observations. -/
def pstd (fsqrt : ℚ → ℚ) (xs : List ℚ) : Option ℚ :=
  if 2 ≤ xs.length then some (fsqrt (variance xs)) else none

/-- `np.percentile(xs, p)` with the default linear interpolation: with the
values sorted ascending and `idx = p/100 * (n-1)`, interpolate between the
entries at `⌊idx⌋` and `⌊idx⌋ + 1`. -/
def percentile (xs : List ℚ) (p : ℚ) : ℚ :=
  let s := xs.insertionSort (· ≤ ·)
  let n := s.length
  let idx : ℚ := p / 100 * ((n : ℚ) - 1)
  let i : ℕ := (⌊idx⌋).toNat
  if i + 1 < n then s.getD i 0 + (idx - (i : ℚ)) * (s.getD (i + 1) 0 - s.getD i 0)
  else s.getD (n - 1) 0

/-- `PortfolioAnalyzer._calculate_daily_pl`: `returns.iloc[-1]` when the
series is non-empty, else `0.0`. -/
def calculate_daily_pl (returns : Series) : ℚ :=
  match returns.getLast? with
  | some dv => dv.2
  | none => 0

/-- `PortfolioAnalyzer._calculate_var`: `np.percentile(returns,
(1 - confidence_level) * 100)` on a non-empty series, else `0.0`.  The
`confidence_level` parameter (Python default `0.95`) is passed explicitly;
`calculate_metrics` uses the default. -/
def calculate_var (returns : Series) (confidence_level : ℚ) : ℚ :=
  if 0 < returns.length then percentile (returns.map Prod.snd) ((1 - confidence_level) * 100)
  else 0

/-- `PortfolioAnalyzer._calculate_volatility`: `returns.std() * np.sqrt(252)`
on a non-empty series (NaN propagates through the product), else `0.0`. -/
def calculate_volatility (fsqrt : ℚ → ℚ) (returns : Series) : Option ℚ :=
  if 0 < returns.length then (pstd fsqrt (returns.map Prod.snd)).map (fun s => s * fsqrt 252)
  else some 0

/-- `PortfolioAnalyzer._calculate_sharpe_ratio` (Lean-side name
`calculate_sharpe`): on a non-empty series,
`np.sqrt(252) * excess_returns.mean() / returns.std()` where
`excess_returns = returns - risk_free_rate/252`; else `0.0`.  The source
has no guard on `returns.std()`: when the standard deviation is NaN (fewer
than two points) or `0` (zero variance) the IEEE quotient is non-finite,
modelled as `none`. -/
def calculate_sharpe (fsqrt : ℚ → ℚ) (returns : Series) : Option ℚ :=
  if 0 < returns.length then
    let vals := returns.map Prod.snd
    let excess_returns := vals.map (fun r => r - risk_free_rate / 252)
    match pstd fsqrt vals with
    | none => none
    | some s => if s = 0 then none else some (fsqrt 252 * mean excess_returns / s)
  else some 0

/-- The row alignment of `pd.concat([returns, market_returns],
axis=1).dropna()` in `_calculate_beta`: the dates present in both series,
paired as (portfolio value `y`, market value `x`). -/
def alignSeries (a b : Series) : List (ℚ × ℚ) :=
  a.filterMap (fun dv => (b.lookup dv.1).map (fun w => (dv.2, w)))

/-- `OLS(y, X).fit().params[0]` for a single regressor and no constant term
(the source adds none): the least-squares slope through the origin,
`Σ x·y / Σ x²`.  (`statsmodels` uses the pseudo-inverse, which yields `0`
for an all-zero regressor, matching `ℚ` division by zero.) -/
def olsSlope (yx : List (ℚ × ℚ)) : ℚ :=
  ((yx.map (fun p => p.2 * p.1)).sum) / ((yx.map (fun p => p.2 * p.2)).sum)

/-- `PortfolioAnalyzer._calculate_beta`: when both series are non-empty and
the date alignment is non-empty, the OLS slope of portfolio returns on
market returns; in every other case the default `1.0`. -/
def calculate_beta (returns market_returns : Series) : ℚ :=
  if 0 < returns.length then
    if 0 < market_returns.length then
      let aligned := alignSeries returns market_returns
      if 0 < aligned.length then olsSlope aligned else 1
    else 1
  else 1

/-- The date index of `pd.concat(position_returns, axis=1)`: the sorted
union of the dates of all the series. -/
def unionDates (seriess : List Series) : List ℕ :=
  ((seriess.map (fun s => s.map Prod.fst)).flatten.dedup).insertionSort (· ≤ ·)

/-- One row of `.sum(axis=1)` (default `skipna=True`): at date `d`, the sum
over the series of the value at `d`, a series with no entry at `d`
contributing `0` (its NaN cell is skipped). -/
def rowSum (seriess : List Series) (d : ℕ) : ℚ :=
  (seriess.map (fun s => (s.lookup d).getD 0)).sum

/-- `pd.concat(position_returns, axis=1).sum(axis=1)` for a non-empty list
of series: one row per date in the union of the date indexes. -/
def concatSumRows (seriess : List Series) : Series :=
  (unionDates seriess).map (fun d => (d, rowSum seriess d))

/-- `pd.concat(position_returns, axis=1).sum(axis=1)`: `pd.concat` raises
`ValueError("No objects to concatenate")` on an empty list of objects. -/
def concatSum (seriess : List Series) : Except String Series :=
  if seriess.isEmpty then Except.error "No objects to concatenate"
  else Except.ok (concatSumRows seriess)

/-- `sum(p.market_value for p in portfolio.positions)`: `None + float`
raises `TypeError`, modelled by `none`. -/
def positionsTotal : List Position → Option ℚ
  | [] => some 0
  | p :: ps => do
    let mv ← p.market_value
    let rest ← positionsTotal ps
    pure (mv + rest)

/-- The weight assignment of `calculate_metrics`: `position.weight =
position.market_value / total_value if total_value > 0 else 0`.
`calculate_metrics` runs it only after the `sum` above succeeded, so
`market_value` is present there and `getD 0` is never exercised. -/
def setWeight (total_value : ℚ) (p : Position) : Position :=
  { p with weight := some (if 0 < total_value then p.market_value.getD 0 / total_value else 0) }

/-- The loop building `position_returns`: for each position,
`yf.download(ticker)...pct_change().dropna() * position.weight` (the weight
just assigned). -/
def weightedSeries (env : Env) (positions : List Position) : List Series :=
  positions.map (fun p => (env.download p.ticker).map (fun dv => (dv.1, dv.2 * p.weight.getD 0)))

/-- Python dict assignment `d[k] = v`: update the first entry with key `k`
in place, or append a new entry. -/
def dictInsert (d : List (String × ℚ)) (k : String) (v : ℚ) : List (String × ℚ) :=
  match d with
  | [] => [(k, v)]
  | kv :: rest => if kv.1 == k then (k, v) :: rest else kv :: dictInsert rest k v

/-- One iteration of the loop of `PortfolioAnalyzer._run_lasso`: run the
try-block (`forecast`) for the position's ticker; on success store its
prediction under the ticker, on any exception store the neutral `0.0`. -/
def lassoStep (forecast : String → Except Unit ℚ) (predictions : List (String × ℚ))
    (p : Position) : List (String × ℚ) :=
  match forecast p.ticker with
  | Except.ok v => dictInsert predictions p.ticker v
  | Except.error _ => dictInsert predictions p.ticker 0

/-- The value `_run_lasso` stores for a ticker: the try-block's prediction,
or `0.0` when the try-block raises. -/
def lassoValue (forecast : String → Except Unit ℚ) (t : String) : ℚ :=
  match forecast t with
  | Except.ok v => v
  | Except.error _ => 0

/-- `PortfolioAnalyzer._run_lasso`: iterate `lassoStep` over the positions,
starting from the empty dict. -/
def run_lasso (forecast : String → Except Unit ℚ) (positions : List Position) :
    List (String × ℚ) :=
  positions.foldl (lassoStep forecast) []

/-- The metrics dictionary literal of `calculate_metrics`. -/
def mkMetrics (fsqrt : ℚ → ℚ) (env : Env) (total : ℚ) (portfolio_returns : Series)
    (spy : Series) (posW : List Position) : Metrics :=
  { total_value := total
    daily_pl := calculate_daily_pl portfolio_returns
    var_95 := calculate_var portfolio_returns (95 / 100)
    volatility := calculate_volatility fsqrt portfolio_returns
    sharpe := calculate_sharpe fsqrt portfolio_returns
    beta := calculate_beta portfolio_returns spy
    lasso_predictions := run_lasso env.forecast posW }

/-- `PortfolioAnalyzer.calculate_metrics`.  Steps of the source, in order:
sum the market values; assign every position's weight; download the SPY
benchmark returns; build each position's weighted return series; combine
them with `pd.concat(...).sum(axis=1)` (which raises on an empty list);
assemble the metrics dict.  The function also returns the portfolio as
left by the call, making the in-place mutation of the positions' `weight`
fields explicit. -/
def calculate_metrics (fsqrt : ℚ → ℚ) (env : Env) (portfolio : Portfolio) :
    Except String (Metrics × Portfolio) :=
  match positionsTotal portfolio.positions with
  | none => Except.error "unsupported operand type"
  | some total =>
    let posW := portfolio.positions.map (setWeight total)
    let spy := env.download "SPY"
    match concatSum (weightedSeries env posW) with
    | Except.error e => Except.error e
    | Except.ok portfolio_returns =>
      Except.ok (mkMetrics fsqrt env total portfolio_returns spy posW,
        { portfolio with positions := posW })

/-! ### Helper lemmas -/

theorem setWeight_ticker (t : ℚ) (p : Position) : (setWeight t p).ticker = p.ticker := rfl

theorem setWeight_fields (t : ℚ) (p : Position) :
    setWeight t p = { p with weight := (setWeight t p).weight } := rfl

theorem setWeight_weight (t : ℚ) (p : Position) :
    (setWeight t p).weight = some (if 0 < t then p.market_value.getD 0 / t else 0) := rfl

/-- Inversion of a successful `calculate_metrics` call: the total summed,
the weighted positions were installed, the concatenation succeeded, and the
output is the metrics dict next to the updated portfolio. -/
theorem calculate_metrics_ok_inv {fsqrt : ℚ → ℚ} {env : Env} {pf : Portfolio}
    {out : Metrics × Portfolio}
    (h : calculate_metrics fsqrt env pf = Except.ok out) :
    ∃ t rs, positionsTotal pf.positions = some t ∧
      concatSum (weightedSeries env (pf.positions.map (setWeight t))) = Except.ok rs ∧
      out = (mkMetrics fsqrt env t rs (env.download "SPY") (pf.positions.map (setWeight t)),
             { pf with positions := pf.positions.map (setWeight t) }) := by
  simp only [calculate_metrics] at h
  split at h
  · exact absurd h (by simp)
  · rename_i t hpt
    split at h
    · exact absurd h (by simp)
    · rename_i rs hcs
      exact ⟨t, rs, hpt, hcs, (Except.ok.inj h).symm⟩

theorem positionsTotal_eq_sum :
    ∀ {ps : List Position} {t : ℚ}, positionsTotal ps = some t →
      t = (ps.map (fun p => p.market_value.getD 0)).sum
  | [], t, h => by simpa [positionsTotal] using (Option.some.inj h).symm
  | p :: ps, t, h => by
    rcases hmv : p.market_value with _ | mv
    · simp [positionsTotal, hmv] at h
    · rcases hrest : positionsTotal ps with _ | rest
      · simp [positionsTotal, hmv, hrest] at h
      · have := positionsTotal_eq_sum hrest
        simp [positionsTotal, hmv, hrest] at h
        simp [hmv, ← h, this]

theorem sum_map_div {α : Type} (l : List α) (f : α → ℚ) (t : ℚ) :
    (l.map (fun x => f x / t)).sum = (l.map f).sum / t := by
  induction l with
  | nil => simp
  | cons x xs ih => simp [ih, add_div]

/-! ### Fixtures: concrete inputs used by closed theorems and witnesses -/

/-- An environment in which every download yields an empty series and every
forecast succeeds with `0`. -/
def envNull : Env := { download := fun _ => [], forecast := fun _ => Except.ok 0 }

/-- A freshly constructed portfolio with no positions. -/
def emptyPortfolio : Portfolio :=
  { positions := [], total_value := none, daily_pl := none, var_95 := none,
    volatility := none, sharpe := none, beta := none, last_updated := none }

/-! ### Claim C2 -/

/-- Claim C2 is a code bug: for a portfolio with an empty position list,
`calculate_metrics` does not return default metrics — `pd.concat` of the
empty `position_returns` list raises `ValueError("No objects to
concatenate")`, so the call raises instead of returning
`total_value = 0` with default aggregates. -/
theorem claim2_empty_portfolio_raises :
    calculate_metrics (fun x => x) envNull emptyPortfolio =
      Except.error "No objects to concatenate" := rfl

/-! ### Claim C3 -/

/-- Claim C3 is a code bug: `_calculate_sharpe_ratio` only guards the empty
series (second conjunct).  For the zero-variance two-point series
`[0.001, 0.001]` the standard deviation is `fsqrt 0 = 0` and the source
divides by it with no guard, producing a non-finite float (`none`) instead
of the specified `0.0` (first conjunct). -/
theorem claim3_sharpe_unguarded (fsqrt : ℚ → ℚ) (h0 : fsqrt 0 = 0) :
    calculate_sharpe fsqrt [(0, 1/1000), (1, 1/1000)] = none ∧
    calculate_sharpe fsqrt [] = some 0 := by
  constructor
  · have hv : variance [(1000:ℚ)⁻¹, 1000⁻¹] = 0 := by norm_num [variance, mean]
    simp [calculate_sharpe, pstd, hv, h0]
  · rfl

/-- Witness for C3: the abstract square root instantiated with a concrete
function satisfying `fsqrt 0 = 0`. -/
theorem claim3_sharpe_unguarded_witness :
    (fun x : ℚ => x) 0 = 0 ∧
    calculate_sharpe (fun x => x) [(0, 1/1000), (1, 1/1000)] = none ∧
    calculate_sharpe (fun x => x) [] = some 0 :=
  ⟨rfl, (claim3_sharpe_unguarded (fun x => x) rfl).1,
    (claim3_sharpe_unguarded (fun x => x) rfl).2⟩

/-! ### Claim C4 -/

/-- Claim C4 counterexample: on the sorted series
`[-0.05, -0.01, 0.0, 0.02, 0.03]`, `_calculate_var` does not return the
element at index `⌊0.05×5⌋ = 0` (i.e. `-0.05`): `np.percentile` linearly
interpolates, giving `-0.042`. -/
theorem claim4_var_counterexample :
    calculate_var [(0, -5/100), (1, -1/100), (2, 0), (3, 2/100), (4, 3/100)] (95/100) = -21/500 ∧
    ((-21 : ℚ)/500 ≠ -(5/100)) := by
  constructor
  · norm_num [calculate_var, percentile, List.insertionSort, List.orderedInsert]
  · norm_num

/-- Claim C4 as amended: `_calculate_var` at the default 0.95 confidence is
the empirical 5th percentile with numpy's default linear interpolation —
`0.0` on an empty series, and `-0.042` (not `-0.05`) on the claim's
series. -/
theorem claim4_var :
    (∀ rs : Series, rs ≠ [] → calculate_var rs (95/100) = percentile (rs.map Prod.snd) 5) ∧
    calculate_var [] (95/100) = 0 ∧
    calculate_var [(0, -5/100), (1, -1/100), (2, 0), (3, 2/100), (4, 3/100)] (95/100) = -21/500 := by
  refine ⟨?_, rfl, ?_⟩
  · intro rs hne
    have h5 : ((1 : ℚ) - 95/100) * 100 = 5 := by norm_num
    simp [calculate_var, List.length_pos.mpr hne, h5]
  · norm_num [calculate_var, percentile, List.insertionSort, List.orderedInsert]

/-- Witness for C4: the non-empty hypothesis discharged on a one-point
series. -/
theorem claim4_var_witness :
    ([((0:ℕ), (1:ℚ))] ≠ ([] : Series)) ∧
    calculate_var [(0, 1)] (95/100) = percentile (List.map Prod.snd [(0, 1)]) 5 :=
  ⟨by simp, claim4_var.1 [(0, 1)] (by simp)⟩

/-! ### Claim C5 -/

/-- Claim C5 counterexample: combining the two weighted series
`[(1, 0.01), (2, 0.02)]` and `[(1, 0.01)]` — the second has no entry at
date `2` (second conjunct) — the portfolio series still contains date `2`,
with the missing position contributing `0` (the date is not excluded, and
the aggregate at date 2 is `0.02 + 0`). -/
theorem claim5_alignment_counterexample :
    concatSum [[(1, 1/100), (2, 2/100)], [(1, 1/100)]] =
      Except.ok [(1, 2/100), (2, 2/100)] ∧
    List.lookup 2 [((1 : ℕ), (1 : ℚ)/100)] = none := by
  constructor
  · norm_num [concatSum, concatSumRows, unionDates, rowSum, List.insertionSort,
      List.orderedInsert, List.dedup_cons_of_mem, List.dedup_cons_of_not_mem,
      List.lookup_cons, show ((1:ℕ) == 1) = true from rfl,
      show ((2:ℕ) == 1) = false from rfl, show ((2:ℕ) == 2) = true from rfl]
  · rfl

/-- Claim C5 as amended: the per-position series are combined by an outer
union of dates, not an inner join — every date present in at least one
position's series appears in the aggregate (second conjunct), and at each
aggregate date the value is the sum over positions of that position's
return at the date, a missing date contributing `0` for that position
(`rowSum`; third conjunct). -/
theorem claim5_alignment (seriess : List Series) (hne : seriess ≠ []) :
    concatSum seriess = Except.ok (concatSumRows seriess) ∧
    (∀ s, s ∈ seriess → ∀ dv : ℕ × ℚ, dv ∈ s →
      (dv.1, rowSum seriess dv.1) ∈ concatSumRows seriess) ∧
    (∀ dv : ℕ × ℚ, dv ∈ concatSumRows seriess → dv.2 = rowSum seriess dv.1) := by
  refine ⟨by simp [concatSum, hne], ?_, ?_⟩
  · intro s hs dv hdv
    have hd : dv.1 ∈ unionDates seriess := by
      simp only [unionDates, List.mem_insertionSort, List.mem_dedup, List.mem_flatten]
      exact ⟨s.map Prod.fst, List.mem_map_of_mem _ hs, List.mem_map_of_mem _ hdv⟩
    exact List.mem_map.mpr ⟨dv.1, hd, rfl⟩
  · intro dv hdv
    rcases List.mem_map.mp hdv with ⟨d, _, hEq⟩
    cases hEq
    rfl

/-- Witness for C5: the amended theorem applied to a singleton list of
series. -/
theorem claim5_alignment_witness :
    ([[(3, 7/10)]] ≠ ([] : List Series)) ∧
    concatSum [[(3, 7/10)]] = Except.ok (concatSumRows [[(3, 7/10)]]) ∧
    ((3 : ℕ), rowSum [[(3, 7/10)]] 3) ∈ concatSumRows [[(3, 7/10)]] :=
  ⟨by simp, (claim5_alignment [[(3, 7/10)]] (by simp)).1,
    (claim5_alignment [[(3, 7/10)]] (by simp)).2.1 [(3, 7/10)] (by simp) (3, 7/10) (by simp)⟩

/-! ### Claim C6 -/

theorem lookup_mem {α β : Type} [BEq α] [LawfulBEq α] :
    ∀ {l : List (α × β)} {k : α} {v : β}, List.lookup k l = some v → (k, v) ∈ l := by
  intro l
  induction l with
  | nil => intro k v h; simp at h
  | cons kv rest ih =>
    intro k v h
    obtain ⟨a, b⟩ := kv
    rw [List.lookup_cons] at h
    split at h
    · rename_i hk
      cases h
      have hka : k = a := eq_of_beq hk
      subst hka
      exact List.mem_cons_self _ _
    · exact List.mem_cons_of_mem _ (ih h)

theorem alignSeries_nil_right (a : Series) : alignSeries a [] = [] := by
  simp [alignSeries]

theorem mem_alignSeries {a b : Series} {p : ℚ × ℚ} (h : p ∈ alignSeries a b) :
    ∃ d, (d, p.1) ∈ a ∧ (d, p.2) ∈ b := by
  rcases List.mem_filterMap.mp h with ⟨dv, hdv, hmap⟩
  rcases hb : List.lookup dv.1 b with _ | w
  · rw [hb, Option.map_none'] at hmap
    exact absurd hmap (by simp)
  · rw [hb, Option.map_some'] at hmap
    have hp : (dv.2, w) = p := Option.some.inj hmap
    subst hp
    exact ⟨dv.1, by simpa using hdv, lookup_mem hb⟩

theorem sum_sq_nonneg (l : List (ℚ × ℚ)) : 0 ≤ (l.map (fun p => p.2 * p.2)).sum := by
  induction l with
  | nil => simp
  | cons p rest ih =>
    simp only [List.map_cons, List.sum_cons]
    exact add_nonneg (mul_self_nonneg p.2) ih

theorem sum_sq_pos {l : List (ℚ × ℚ)} (h : ∃ p ∈ l, p.2 ≠ 0) :
    0 < (l.map (fun p => p.2 * p.2)).sum := by
  induction l with
  | nil => simp at h
  | cons q rest ih =>
    simp only [List.map_cons, List.sum_cons]
    rcases h with ⟨p, hp, hpne⟩
    rcases List.mem_cons.mp hp with rfl | hp
    · exact add_pos_of_pos_of_nonneg (mul_self_pos.mpr hpne) (sum_sq_nonneg rest)
    · exact add_pos_of_nonneg_of_pos (mul_self_nonneg q.2) (ih ⟨p, hp, hpne⟩)

theorem sum_twice {l : List (ℚ × ℚ)} (h : ∀ p ∈ l, p.1 = 2 * p.2) :
    (l.map (fun p => p.2 * p.1)).sum = 2 * (l.map (fun p => p.2 * p.2)).sum := by
  induction l with
  | nil => simp
  | cons q rest ih =>
    simp only [List.map_cons, List.sum_cons]
    rw [h q (List.mem_cons_self q rest), ih (fun p hp => h p (List.mem_cons_of_mem q hp))]
    ring

/-- Claim C6: `_calculate_beta` returns the default `1.0` whenever either
series is empty or the alignment has no overlapping date (first conjunct);
the regression uses only the dates present in both series after alignment
(second conjunct); and on a non-degenerate alignment in which the
portfolio returns equal `2 ×` the benchmark returns pointwise, the OLS
slope it returns is exactly `2` (third conjunct). -/
theorem claim6_beta :
    (∀ returns market_returns : Series,
      returns = [] ∨ market_returns = [] ∨ alignSeries returns market_returns = [] →
      calculate_beta returns market_returns = 1) ∧
    (∀ (returns market_returns : Series) (p : ℚ × ℚ),
      p ∈ alignSeries returns market_returns →
      ∃ d, (d, p.1) ∈ returns ∧ (d, p.2) ∈ market_returns) ∧
    (∀ returns market_returns : Series,
      (∀ p ∈ alignSeries returns market_returns, p.1 = 2 * p.2) →
      alignSeries returns market_returns ≠ [] →
      (∃ p ∈ alignSeries returns market_returns, p.2 ≠ 0) →
      calculate_beta returns market_returns = 2) := by
  refine ⟨?_, fun r m p hp => mem_alignSeries hp, ?_⟩
  · intro r m h
    rcases h with h | h | h <;> simp [calculate_beta, h]
  · intro r m hptw hne hex
    have hr : r ≠ [] := by
      intro hr
      exact hne (by simp [hr, alignSeries])
    have hm : m ≠ [] := by
      intro hm
      exact hne (by simp [hm, alignSeries_nil_right])
    have hS : 0 < ((alignSeries r m).map (fun p => p.2 * p.2)).sum := sum_sq_pos hex
    simp only [calculate_beta, List.length_pos.mpr hr, if_true, List.length_pos.mpr hm,
      List.length_pos.mpr hne, olsSlope]
    rw [sum_twice hptw, mul_div_assoc, div_self (ne_of_gt hS), mul_one]

/-- Witness for C6: the default branch at two empty series, and the slope
`2` on the aligned pair `(0.2, 0.1)`. -/
theorem claim6_beta_witness :
    calculate_beta [] [] = 1 ∧
    calculate_beta [(0, 2/10)] [(0, 1/10)] = 2 := by
  have halign : alignSeries [((0:ℕ), (2:ℚ)/10)] [((0:ℕ), (1:ℚ)/10)] = [(2/10, 1/10)] := by
    norm_num [alignSeries, List.filterMap_cons, List.filterMap_nil, List.lookup_cons,
      show ((0:ℕ) == 0) = true from rfl]
  refine ⟨claim6_beta.1 [] [] (Or.inl rfl), claim6_beta.2.2 _ _ ?_ ?_ ?_⟩
  · rw [halign]
    norm_num
  · rw [halign]
    simp
  · rw [halign]
    exact ⟨(2/10, 1/10), by simp, by norm_num⟩

/-! ### Claim C7 -/

theorem dictInsert_lookup_self (d : List (String × ℚ)) (k : String) (v : ℚ) :
    List.lookup k (dictInsert d k v) = some v := by
  induction d with
  | nil => simp [dictInsert, List.lookup_cons]
  | cons kv rest ih =>
    obtain ⟨a, b⟩ := kv
    by_cases h : (a == k) = true
    · simp [dictInsert, h, List.lookup_cons]
    · have hne : ¬ k = a := fun he => h (by simp [he])
      have h2 : (k == a) = false := beq_eq_false_iff_ne.mpr hne
      simp [dictInsert, h, List.lookup_cons, h2, ih]

theorem dictInsert_lookup_ne (d : List (String × ℚ)) (k t : String) (v : ℚ) (hne : t ≠ k) :
    List.lookup t (dictInsert d k v) = List.lookup t d := by
  have ht : (t == k) = false := beq_eq_false_iff_ne.mpr hne
  induction d with
  | nil => simp [dictInsert, List.lookup_cons, ht]
  | cons kv rest ih =>
    obtain ⟨a, b⟩ := kv
    by_cases h : (a == k) = true
    · have hak : a = k := eq_of_beq h
      subst hak
      simp [dictInsert, List.lookup_cons, ht]
    · simp only [dictInsert, h, Bool.false_eq_true, if_false]
      rw [List.lookup_cons, List.lookup_cons]
      cases hta : t == a with
      | true => rfl
      | false => exact ih

theorem foldl_lassoStep_lookup_not_mem (f : String → Except Unit ℚ) :
    ∀ (ps : List Position) (acc : List (String × ℚ)) (t : String),
      t ∉ ps.map Position.ticker →
      List.lookup t (ps.foldl (lassoStep f) acc) = List.lookup t acc := by
  intro ps
  induction ps with
  | nil => intro acc t _; rfl
  | cons p rest ih =>
    intro acc t h
    simp only [List.map_cons, List.mem_cons] at h
    push_neg at h
    obtain ⟨hne, hnotin⟩ := h
    simp only [List.foldl_cons]
    rw [ih _ t hnotin]
    rcases hf : f p.ticker with e | v <;>
      simp only [lassoStep, hf] <;>
      exact dictInsert_lookup_ne _ _ _ _ hne

theorem run_lasso_lookup (f : String → Except Unit ℚ) :
    ∀ (ps : List Position) (acc : List (String × ℚ)) (p : Position),
      (ps.map Position.ticker).Nodup → p ∈ ps →
      List.lookup p.ticker (ps.foldl (lassoStep f) acc) = some (lassoValue f p.ticker) := by
  intro ps
  induction ps with
  | nil => intro acc p _ hp; simp at hp
  | cons q rest ih =>
    intro acc p hnd hp
    simp only [List.map_cons, List.nodup_cons] at hnd
    obtain ⟨hqnot, hndrest⟩ := hnd
    simp only [List.foldl_cons]
    rcases List.mem_cons.mp hp with rfl | hp2
    · rw [foldl_lassoStep_lookup_not_mem f rest _ _ hqnot]
      rcases hf : f p.ticker with e | v <;>
        simp [lassoStep, hf, lassoValue, dictInsert_lookup_self]
    · exact ih _ p hndrest hp2

/-- Claim C7: a forecast failure is position-scoped.  First conjunct: in
the dict built by `_run_lasso`, every position's ticker (tickers assumed
distinct, as dict keys) is mapped to its own try-block's outcome — the
prediction on success, the neutral `0.0` on failure — independent of any
other position's outcome.  Second conjunct: the forecast outcomes (and so
any per-position failures) have no effect on `calculate_metrics` beyond
the `lasso_predictions` entry: with the lasso entry erased, the result is
the same for any two forecast environments, so a failure never aborts or
alters the rest of the metrics computation. -/
theorem claim7_lasso_isolation :
    (∀ (forecast : String → Except Unit ℚ) (positions : List Position) (p : Position),
      (positions.map Position.ticker).Nodup → p ∈ positions →
      List.lookup p.ticker (run_lasso forecast positions) =
        some (lassoValue forecast p.ticker)) ∧
    (∀ (fsqrt : ℚ → ℚ) (download : String → Series) (f g : String → Except Unit ℚ)
      (pf : Portfolio),
      Except.map (fun r : Metrics × Portfolio => ({ r.1 with lasso_predictions := [] }, r.2))
          (calculate_metrics fsqrt { download := download, forecast := f } pf) =
        Except.map (fun r : Metrics × Portfolio => ({ r.1 with lasso_predictions := [] }, r.2))
          (calculate_metrics fsqrt { download := download, forecast := g } pf)) := by
  constructor
  · intro forecast positions p hnd hp
    exact run_lasso_lookup forecast positions [] p hnd hp
  · intro fsqrt download f g pf
    rcases hpt : positionsTotal pf.positions with _ | t
    · simp only [calculate_metrics, hpt]
    · simp only [calculate_metrics, hpt]
      rw [show weightedSeries { download := download, forecast := g }
            (pf.positions.map (setWeight t)) =
          weightedSeries { download := download, forecast := f }
            (pf.positions.map (setWeight t)) from rfl]
      rcases hcs : concatSum (weightedSeries { download := download, forecast := f }
          (pf.positions.map (setWeight t))) with e | rs
      · simp only [hcs]
      · simp only [hcs]
        rfl

/-- A forecast environment that fails for AAPL and succeeds with `0.05`
for every other ticker. -/
def failingForecast : String → Except Unit ℚ :=
  fun t => if t == "AAPL" then Except.error () else Except.ok (5/100)

/-- A position in AAPL used by concrete instances. -/
def posA : Position :=
  { ticker := "AAPL", shares := 1, purchase_price := 1, current_price := some 1,
    market_value := some 1, unrealized_pl := some 0, weight := none }

/-- A position in MSFT used by concrete instances. -/
def posB : Position := { posA with ticker := "MSFT" }

/-- Witness for C7: with AAPL's forecast failing and MSFT's succeeding,
the dict maps AAPL to `0.0` and MSFT to its prediction `0.05`. -/
theorem claim7_lasso_isolation_witness :
    ((([posA, posB]).map Position.ticker).Nodup ∧ posA ∈ [posA, posB] ∧ posB ∈ [posA, posB]) ∧
    List.lookup posA.ticker (run_lasso failingForecast [posA, posB]) =
      some (lassoValue failingForecast posA.ticker) ∧
    List.lookup posB.ticker (run_lasso failingForecast [posA, posB]) =
      some (lassoValue failingForecast posB.ticker) ∧
    lassoValue failingForecast posA.ticker = 0 ∧
    lassoValue failingForecast posB.ticker = 5/100 := by
  refine ⟨⟨by simp [posA, posB], by simp, by simp⟩, ?_, ?_, rfl, rfl⟩
  · exact claim7_lasso_isolation.1 failingForecast [posA, posB] posA
      (by simp [posA, posB]) (by simp)
  · exact claim7_lasso_isolation.1 failingForecast [posA, posB] posB
      (by simp [posA, posB]) (by simp)

/-! ### Claim C8 -/

theorem mean_const {l : List ℚ} {c : ℚ} (hl : 0 < l.length) (h : ∀ x ∈ l, x = c) :
    mean l = c := by
  have hrep : l = List.replicate l.length c := List.eq_replicate_length.mpr h
  have hsum : l.sum = (l.length : ℚ) * c := by
    conv_lhs => rw [hrep]
    rw [List.sum_replicate, nsmul_eq_mul]
  have hne : (l.length : ℚ) ≠ 0 := by
    exact_mod_cast Nat.pos_iff_ne_zero.mp hl
  rw [mean, hsum]
  exact mul_div_cancel_left₀ c hne

theorem variance_const {l : List ℚ} {c : ℚ} (hl : 0 < l.length) (h : ∀ x ∈ l, x = c) :
    variance l = 0 := by
  have hm : mean l = c := mean_const hl h
  have hz : (l.map (fun x => (x - mean l) ^ 2)).sum = 0 := by
    apply List.sum_eq_zero
    intro y hy
    rcases List.mem_map.mp hy with ⟨x, hx, hxy⟩
    rw [← hxy, h x hx, hm, sub_self]
    ring
  rw [variance, hz, zero_div]

/-- Claim C8: `_calculate_volatility` returns `0.0` on an empty series
(first conjunct), the standard deviation times `√252` on a non-empty
series (second conjunct; `pstd` is NaN, hence so is the product, on a
single point), and exactly `0` on any constant series of at least two
points — zero variance, no division anywhere (third conjunct). -/
theorem claim8_volatility (fsqrt : ℚ → ℚ) (h0 : fsqrt 0 = 0) :
    calculate_volatility fsqrt [] = some 0 ∧
    (∀ rs : Series, rs ≠ [] →
      calculate_volatility fsqrt rs =
        (pstd fsqrt (rs.map Prod.snd)).map (fun s => s * fsqrt 252)) ∧
    (∀ (c : ℚ) (rs : Series), 2 ≤ rs.length → (∀ dv ∈ rs, dv.2 = c) →
      calculate_volatility fsqrt rs = some 0) := by
  refine ⟨rfl, ?_, ?_⟩
  · intro rs hne
    simp [calculate_volatility, List.length_pos.mpr hne]
  · intro c rs h2 hconst
    have hlen : (rs.map Prod.snd).length = rs.length := List.length_map rs Prod.snd
    have hvals : ∀ x ∈ rs.map Prod.snd, x = c := by
      intro x hx
      rcases List.mem_map.mp hx with ⟨dv, hdv, hxv⟩
      rw [← hxv]
      exact hconst dv hdv
    have hvar : variance (rs.map Prod.snd) = 0 :=
      variance_const (by omega) hvals
    have hpos : 0 < rs.length := by omega
    simp [calculate_volatility, hpos, pstd, hlen, h2, hvar, h0]

/-- Witness for C8: the abstract square root instantiated concretely, the
constant ten-point series `[0.001] * 10`, and the empty series. -/
theorem claim8_volatility_witness :
    (fun x : ℚ => x) 0 = 0 ∧
    calculate_volatility (fun x => x)
      [(0, 1/1000), (1, 1/1000), (2, 1/1000), (3, 1/1000), (4, 1/1000),
       (5, 1/1000), (6, 1/1000), (7, 1/1000), (8, 1/1000), (9, 1/1000)] = some 0 ∧
    calculate_volatility (fun x => x) [] = some 0 :=
  ⟨rfl,
    (claim8_volatility (fun x => x) rfl).2.2 (1/1000) _ (by simp) (by simp),
    (claim8_volatility (fun x => x) rfl).1⟩

/-! ### Claim C1 -/

/-- Claim C1: on every successful call, `calculate_metrics` sets each
position's weight to `market_value / total_value` when the total is
positive and to `0` otherwise — a formula over the input's market values
only, so the weights are fully re-derived on each call (first conjunct) —
and whenever the total value is positive the weights of all positions sum
to exactly `1` (second conjunct; exact equality in the rational model, so
within any floating-point tolerance). -/
theorem claim1_weights (fsqrt : ℚ → ℚ) (env : Env) (pf : Portfolio)
    (out : Metrics × Portfolio)
    (h : calculate_metrics fsqrt env pf = Except.ok out) :
    (∀ i (hi : i < out.2.positions.length) (hj : i < pf.positions.length),
      (out.2.positions.get ⟨i, hi⟩).weight =
        some (if 0 < out.1.total_value then
          (pf.positions.get ⟨i, hj⟩).market_value.getD 0 / out.1.total_value else 0)) ∧
    (0 < out.1.total_value →
      (out.2.positions.map (fun p => p.weight.getD 0)).sum = 1) := by
  obtain ⟨t, rs, hpt, hcs, hout⟩ := calculate_metrics_ok_inv h
  subst hout
  constructor
  · intro i hi hj
    simp only [List.get_eq_getElem, List.getElem_map]
    rfl
  · intro hpos
    have hpos' : 0 < t := hpos
    have hmap : (List.map (setWeight t) pf.positions).map (fun p => p.weight.getD 0)
        = pf.positions.map (fun p => p.market_value.getD 0 / t) := by
      rw [List.map_map]
      apply List.map_congr_left
      intro p _
      simp [Function.comp, setWeight_weight, hpos']
    show ((List.map (setWeight t) pf.positions).map (fun p => p.weight.getD 0)).sum = 1
    rw [hmap, sum_map_div pf.positions (fun p => p.market_value.getD 0) t,
      ← positionsTotal_eq_sum hpt, div_self (ne_of_gt hpos')]

/-! ### Fixtures for the `calculate_metrics` witnesses -/

/-- An environment in which every ticker downloads the one-point return
series `[(0, 0.01)]` and every forecast succeeds with `0`. -/
def envC1 : Env := { download := fun _ => [(0, 1/100)], forecast := fun _ => Except.ok 0 }

/-- A two-position portfolio: AAPL with market value 100 and MSFT with
market value 300, weights not yet populated. -/
def pfC1 : Portfolio :=
  { positions :=
      [{ posA with market_value := some 100 }, { posB with market_value := some 300 }],
    total_value := none, daily_pl := none, var_95 := none, volatility := none,
    sharpe := none, beta := none, last_updated := none }

/-- The metrics `calculate_metrics` computes for `pfC1` under `envC1`. -/
def mC1 : Metrics :=
  { total_value := 400, daily_pl := 1/100, var_95 := 1/100, volatility := none,
    sharpe := none, beta := 1, lasso_predictions := [("AAPL", 0), ("MSFT", 0)] }

/-- The portfolio as left by that call: weights `1/4` and `3/4`
installed. -/
def pfC1out : Portfolio :=
  { pfC1 with positions :=
      [{ posA with market_value := some 100, weight := some (1/4) },
       { posB with market_value := some 300, weight := some (3/4) }] }

/-- Concrete evaluation of the full engine on `pfC1` under `envC1`. -/
theorem calculate_metrics_envC1_pfC1 :
    calculate_metrics (fun x => x) envC1 pfC1 = Except.ok (mC1, pfC1out) := by
  norm_num [calculate_metrics, positionsTotal, setWeight, weightedSeries, concatSum,
    concatSumRows, unionDates, rowSum, mkMetrics, calculate_daily_pl, calculate_var,
    percentile, List.insertionSort, List.orderedInsert, calculate_volatility, pstd,
    calculate_sharpe, calculate_beta, alignSeries, olsSlope, run_lasso, lassoStep,
    lassoValue, dictInsert, envC1, pfC1, mC1, pfC1out, posA, posB, List.lookup_cons,
    List.filterMap_cons, List.filterMap_nil, List.dedup_cons_of_mem,
    List.dedup_cons_of_not_mem, show ((0:ℕ) == 0) = true from rfl,
    show ("AAPL" == "MSFT") = false from rfl]

/-- Witness for C1: the hypothesis discharged by the concrete evaluation;
the installed weights `1/4 + 3/4` sum to `1`. -/
theorem claim1_weights_witness :
    calculate_metrics (fun x => x) envC1 pfC1 = Except.ok (mC1, pfC1out) ∧
    0 < mC1.total_value ∧
    ((mC1, pfC1out).2.positions.map (fun p => p.weight.getD 0)).sum = 1 :=
  ⟨calculate_metrics_envC1_pfC1, by norm_num [mC1],
    (claim1_weights (fun x => x) envC1 pfC1 (mC1, pfC1out)
      calculate_metrics_envC1_pfC1).2 (by norm_num [mC1])⟩

/-! ### Claim C10 -/

/-- Claim C10: on every successful call, `calculate_metrics` writes only
the `weight` field of each position: the position count and order are
unchanged (first conjunct), every position agrees with the corresponding
input position on every field except `weight` (second conjunct), and
every other field of the portfolio record is unchanged (third
conjunct). -/
theorem claim10_frame (fsqrt : ℚ → ℚ) (env : Env) (pf : Portfolio)
    (out : Metrics × Portfolio)
    (h : calculate_metrics fsqrt env pf = Except.ok out) :
    out.2.positions.length = pf.positions.length ∧
    (∀ i (hi : i < out.2.positions.length) (hj : i < pf.positions.length),
      out.2.positions.get ⟨i, hi⟩ =
        { pf.positions.get ⟨i, hj⟩ with
            weight := (out.2.positions.get ⟨i, hi⟩).weight }) ∧
    out.2 = { pf with positions := out.2.positions } := by
  obtain ⟨t, rs, hpt, hcs, hout⟩ := calculate_metrics_ok_inv h
  subst hout
  refine ⟨by simp, ?_, rfl⟩
  intro i hi hj
  simp only [List.get_eq_getElem, List.getElem_map]
  exact setWeight_fields t _

/-- Witness for C10: on the concrete call, position 0 keeps its ticker,
shares, prices and values, and only gains a weight. -/
theorem claim10_frame_witness :
    calculate_metrics (fun x => x) envC1 pfC1 = Except.ok (mC1, pfC1out) ∧
    pfC1out.positions.length = pfC1.positions.length ∧
    (mC1, pfC1out).2 = { pfC1 with positions := (mC1, pfC1out).2.positions } :=
  ⟨calculate_metrics_envC1_pfC1,
    (claim10_frame (fun x => x) envC1 pfC1 (mC1, pfC1out) calculate_metrics_envC1_pfC1).1,
    (claim10_frame (fun x => x) envC1 pfC1 (mC1, pfC1out) calculate_metrics_envC1_pfC1).2.2⟩

/-! ### Claim C9 -/

/-- An environment identical to `envC1` except that every download yields
`[(0, 0.02)]` instead of `[(0, 0.01)]` — same in-memory portfolio, a
different state of the external market. -/
def envC9 : Env := { download := fun _ => [(0, 2/100)], forecast := fun _ => Except.ok 0 }

/-- An environment that differs from `envC1` only at the ticker "ZZZ",
which no position of `pfC1` holds. -/
def envD : Env :=
  { download := fun t => if t == "ZZZ" then [] else [(0, 1/100)],
    forecast := fun _ => Except.ok 0 }

/-- Claim C9 counterexample: `calculate_metrics` is not a pure function of
the caller-supplied in-memory input — it reads external data
(`yf.download`) during the computation.  Two calls on the same portfolio
`pfC1`, with the market downloads differing between the calls, return
different metrics (the daily P&L follows the downloaded series). -/
theorem claim9_purity_counterexample :
    calculate_metrics (fun x => x) envC1 pfC1 ≠ calculate_metrics (fun x => x) envC9 pfC1 := by
  intro h
  have h1 : Except.map (fun r : Metrics × Portfolio => r.1.daily_pl)
      (calculate_metrics (fun x => x) envC1 pfC1) = Except.ok (1/100) := by
    rw [calculate_metrics_envC1_pfC1]
    rfl
  have h2 : Except.map (fun r : Metrics × Portfolio => r.1.daily_pl)
      (calculate_metrics (fun x => x) envC9 pfC1) = Except.ok (2/100) := by
    norm_num [calculate_metrics, positionsTotal, setWeight, weightedSeries, concatSum,
      concatSumRows, unionDates, rowSum, mkMetrics, calculate_daily_pl, calculate_var,
      percentile, List.insertionSort, List.orderedInsert, calculate_volatility, pstd,
      calculate_sharpe, calculate_beta, alignSeries, olsSlope, run_lasso, lassoStep,
      lassoValue, dictInsert, Except.map, envC9, pfC1, posA, posB, List.lookup_cons,
      List.filterMap_cons, List.filterMap_nil, List.dedup_cons_of_mem,
      List.dedup_cons_of_not_mem, show ((0:ℕ) == 0) = true from rfl,
      show ("AAPL" == "MSFT") = false from rfl]
  rw [h, h2] at h1
  have := Except.ok.inj h1
  norm_num at this

theorem foldl_lassoStep_congr (f g : String → Except Unit ℚ) :
    ∀ (ps : List Position) (acc : List (String × ℚ)),
      (∀ p ∈ ps, f p.ticker = g p.ticker) →
      ps.foldl (lassoStep f) acc = ps.foldl (lassoStep g) acc := by
  intro ps
  induction ps with
  | nil => intro acc _; rfl
  | cons q rest ih =>
    intro acc h
    simp only [List.foldl_cons]
    rw [show lassoStep f acc q = lassoStep g acc q from by
      unfold lassoStep
      rw [h q (List.mem_cons_self q rest)]]
    exact ih _ (fun p hp => h p (List.mem_cons_of_mem q hp))

/-- Claim C9 as amended: every metric is a pure function of the portfolio
together with the external data the call itself fetches — the benchmark
download ("SPY"), the per-position ticker downloads, and the per-position
forecast outcomes.  Two calls on equal portfolios whose fetches agree at
exactly those tickers produce equal results; no other external state is
read. -/
theorem claim9_purity (fsqrt : ℚ → ℚ) (e1 e2 : Env) (pf : Portfolio)
    (hspy : e1.download "SPY" = e2.download "SPY")
    (hdl : ∀ p ∈ pf.positions, e1.download p.ticker = e2.download p.ticker)
    (hfc : ∀ p ∈ pf.positions, e1.forecast p.ticker = e2.forecast p.ticker) :
    calculate_metrics fsqrt e1 pf = calculate_metrics fsqrt e2 pf := by
  rcases hpt : positionsTotal pf.positions with _ | t
  · simp only [calculate_metrics, hpt]
  · simp only [calculate_metrics, hpt]
    have hws : weightedSeries e1 (pf.positions.map (setWeight t)) =
        weightedSeries e2 (pf.positions.map (setWeight t)) := by
      unfold weightedSeries
      apply List.map_congr_left
      intro q hq
      rcases List.mem_map.mp hq with ⟨p, hp, hqe⟩
      subst hqe
      rw [setWeight_ticker, hdl p hp]
    have hrl : run_lasso e1.forecast (pf.positions.map (setWeight t)) =
        run_lasso e2.forecast (pf.positions.map (setWeight t)) := by
      unfold run_lasso
      apply foldl_lassoStep_congr
      intro q hq
      rcases List.mem_map.mp hq with ⟨p, hp, hqe⟩
      subst hqe
      rw [setWeight_ticker]
      exact hfc p hp
    rw [hws]
    rcases hcs : concatSum (weightedSeries e2 (pf.positions.map (setWeight t))) with e | rs
    · simp only [hcs]
    · simp only [hcs]
      simp [mkMetrics, hspy, hrl]

/-- Witness for C9: `envC1` and `envD` agree on "SPY" and on the tickers
held by `pfC1` (they differ only at "ZZZ"), so the two calls coincide. -/
theorem claim9_purity_witness :
    envC1.download "SPY" = envD.download "SPY" ∧
    (∀ p ∈ pfC1.positions, envC1.download p.ticker = envD.download p.ticker) ∧
    (∀ p ∈ pfC1.positions, envC1.forecast p.ticker = envD.forecast p.ticker) ∧
    calculate_metrics (fun x => x) envC1 pfC1 = calculate_metrics (fun x => x) envD pfC1 := by
  have hdl : ∀ p ∈ pfC1.positions, envC1.download p.ticker = envD.download p.ticker := by
    intro p hp
    simp only [pfC1] at hp
    rcases List.mem_cons.mp hp with rfl | hp
    · rfl
    · rcases List.mem_cons.mp hp with rfl | hp
      · rfl
      · simp at hp
  have hfc : ∀ p ∈ pfC1.positions, envC1.forecast p.ticker = envD.forecast p.ticker :=
    fun p _ => rfl
  exact ⟨rfl, hdl, hfc, claim9_purity (fun x => x) envC1 envD pfC1 rfl hdl hfc⟩
